import Mathlib

/-!
# Shallow embedding of `umd_metadata_ng/umd_io.py` (calibre-umd-ng)

This file models the UMD binary decoder of `UMDFile` in
`src/umd_metadata_ng/umd_io.py`: `read_metadata`, `read_content`,
`read_cover` and the chapter assembly of `from_stream`.

Conventions of the embedding:
* A Python binary stream is a `ByteStream`: the full byte list plus a
  cursor position.  `stream.read(n)` is `bsRead` (for negative `n`,
  Python reads the remainder of the stream); `stream.tell()` is `.pos`.
* `struct.unpack(fmt, stream.read(k))` raises `struct.error` when the
  read is short; this is `readExact`, returning `Except`.
* Machine integers: bytes are `Nat`s `< 256`; little-endian signed
  decodings (`<h`, `<i`, `<b`) are `sIntLE` over the byte list.
* Python exceptions become constructors of `UmdError`.  `assert` raises
  `assertionError`, a failed dict/tuple subscript `keyError`/`indexError`,
  `zlib.decompress` failure `zlibError`, `bytes.decode` failure
  `unicodeError`, the magic-signature check `valueError`.
* Loops are modelled with fuel.  Exhausted fuel (`outOfFuel`) models
  non-termination: whenever we prove a result for the top-level fuel
  `data.length + 1` the real loop behaves identically, and a result of
  `outOfFuel` for *every* fuel is a proof that the Python loop spins
  forever without making progress.
* `zlib.decompress` is an uninterpreted parameter
  `d : List Nat → Option (List Nat)` (`none` = `zlib.error`).
-/

/-- Python exceptions that `umd_io.py` can raise, plus `outOfFuel`
modelling non-termination of a loop. -/
inductive UmdError where
  | valueError
  | assertionError
  | keyError
  | indexError
  | structError
  | zlibError
  | unicodeError
  | outOfFuel
deriving DecidableEq, Repr

deriving instance DecidableEq for Except

/-- A positioned byte stream: the underlying data and the cursor. -/
structure ByteStream where
  data : List Nat
  pos : Nat
deriving DecidableEq, Repr

/-- `stream.read(n)`.  For `n < 0` Python's `read` returns the entire
remainder; otherwise up to `n` bytes.  The cursor advances by the number
of bytes actually returned. -/
def bsRead (s : ByteStream) (n : Int) : List Nat × ByteStream :=
  let avail := s.data.drop s.pos
  let bytes := if n < 0 then avail else avail.take n.toNat
  (bytes, ⟨s.data, s.pos + bytes.length⟩)

/-- `struct.unpack(fmt, stream.read(n))` where `fmt` needs exactly `n`
bytes: a short read raises `struct.error`. -/
def readExact (s : ByteStream) (n : Nat) : Except UmdError (List Nat × ByteStream) :=
  let r := bsRead s (n : Int)
  if r.1.length = n then .ok r else .error .structError

/-- Little-endian value of a byte list. -/
def leVal : List Nat → Nat
  | [] => 0
  | b :: rest => b + 256 * leVal rest

/-- Two's-complement reinterpretation of a `w`-byte unsigned value. -/
def toSigned (w : Nat) (v : Nat) : Int :=
  if v < 2 ^ (8 * w - 1) then (v : Int) else (v : Int) - 2 ^ (8 * w)

/-- Signed little-endian decoding of a whole byte list (struct `<b`,
`<h`, `<i` for lists of length 1, 2, 4). -/
def sIntLE (bs : List Nat) : Int :=
  toSigned bs.length (leVal bs)

/-- Python `int(a / b)` for positive integer `b` (true division then
truncation toward zero; exact for the 32-bit magnitudes used here). -/
def pyTruncDiv (a : Int) (b : Nat) : Int :=
  if 0 ≤ a then ((a.toNat / b : Nat) : Int) else -(((-a).toNat / b : Nat) : Int)

/-- Split a byte list into consecutive 4-byte chunks (struct `"i"*n`). -/
def chunks4 : List Nat → List (List Nat)
  | a :: b :: c :: d :: rest => [a, b, c, d] :: chunks4 rest
  | _ => []

/-- Decode a byte list as consecutive little-endian signed 32-bit values. -/
def decodeI32s (bs : List Nat) : List Int :=
  (chunks4 bs).map sIntLE

/-- Pair bytes into UTF-16 code units (little-endian); `none` on an odd
trailing byte. -/
def utf16Units : List Nat → Option (List Nat)
  | [] => some []
  | [_] => none
  | b0 :: b1 :: rest => (utf16Units rest).map (fun us => (b0 + 256 * b1) :: us)

/-- High surrogate test. -/
def isHighSurr (u : Nat) : Bool := 0xD800 ≤ u && u ≤ 0xDBFF

/-- Low surrogate test. -/
def isLowSurr (u : Nat) : Bool := 0xDC00 ≤ u && u ≤ 0xDFFF

/-- Combine surrogate pairs into code points; `none` on an unpaired
surrogate (Python's strict `codecs` behaviour). -/
def combineSurr : List Nat → Option (List Nat)
  | [] => some []
  | [u] => if isHighSurr u || isLowSurr u then none else some [u]
  | u :: v :: rest =>
    if isHighSurr u then
      if isLowSurr v then
        (combineSurr rest).map (fun cs => (0x10000 + (u - 0xD800) * 0x400 + (v - 0xDC00)) :: cs)
      else none
    else if isLowSurr u then none
    else (combineSurr (v :: rest)).map (fun cs => u :: cs)

/-- `bytes.decode("utf-16-le")`: the decoded text as a list of code
points, or `none` (UnicodeDecodeError). -/
def utf16leDecode (bs : List Nat) : Option (List Nat) :=
  (utf16Units bs).bind combineSurr

/-- The metadata dict built by `read_metadata` (text fields are decoded
code-point lists). -/
structure UMetadata where
  category : Option String := none
  title : Option (List Nat) := none
  author : Option (List Nat) := none
  year : Option (List Nat) := none
  month : Option (List Nat) := none
  date : Option (List Nat) := none
  book_type : Option (List Nat) := none
  publisher : Option (List Nat) := none
  retailer : Option (List Nat) := none
  full_length : Option Int := none
  chapter_offsets : Option (List Int) := none
  chapter_titles : Option (List (List Nat)) := none
  body_offset : Option Nat := none
deriving DecidableEq, Repr

/-- `metadata[_BLOCK_TYPE_DICT[tag]] = content` for the text tags
0x02–0x09. -/
def setTextField (m : UMetadata) (tag : Nat) (v : List Nat) : UMetadata :=
  match tag with
  | 0x02 => { m with title := some v }
  | 0x03 => { m with author := some v }
  | 0x04 => { m with year := some v }
  | 0x05 => { m with month := some v }
  | 0x06 => { m with date := some v }
  | 0x07 => { m with book_type := some v }
  | 0x08 => { m with publisher := some v }
  | 0x09 => { m with retailer := some v }
  | _ => m

/-- Block 0x01 (category): `h1, category_byte, h2 = unpack("<hbh", read(5))`
then `metadata["category"] = {0x01: "Novel", "0x02": "Comic"}[category_byte]`.
The `Comic` key in the source dict is the *string* `"0x02"`, so only
category byte 1 can ever be found; every other byte raises `KeyError`.
The two 16-bit values `h1`, `h2` are read and logged but never compared. -/
def branch01 (m : UMetadata) (s : ByteStream) : Except UmdError (UMetadata × ByteStream) :=
  match readExact s 5 with
  | .error e => .error e
  | .ok (bs, s1) =>
    let cb := sIntLE ((bs.drop 2).take 1)
    if cb = 1 then .ok ({ m with category := some "Novel" }, s1)
    else .error .keyError

/-- Blocks 0x02–0x09 (text fields): `b1, raw_length = unpack("<bb", read(2))`,
then `read(raw_length - 5).decode("utf-16-le")`. -/
def branchText (tag : Nat) (m : UMetadata) (s : ByteStream) :
    Except UmdError (UMetadata × ByteStream) :=
  match readExact s 2 with
  | .error e => .error e
  | .ok (bs, s1) =>
    let rawLength := sIntLE (bs.drop 1)
    let r := bsRead s1 (rawLength - 5)
    match utf16leDecode r.1 with
    | none => .error .unicodeError
    | some content => .ok (setTextField m tag content, r.2)

/-- Block 0x0b (full_length): `h1, full_length = unpack("<hi", read(6))`. -/
def branch0b (m : UMetadata) (s : ByteStream) : Except UmdError (UMetadata × ByteStream) :=
  match readExact s 6 with
  | .error e => .error e
  | .ok (bs, s1) =>
    .ok ({ m with full_length := some (sIntLE (bs.drop 2)) }, s1)

/-- Block 0x83 (chapter offsets): `h1, i1, b1, i2, raw_ch_no =
unpack("<hibii", read(15))`; `assert i1 == i2`;
`n = int((raw_ch_no - 9) / 4)`; `unpack("<" + "i"*n, read(4*n))`;
offsets stored as `int(x / 2)` each, in on-disk order.
For negative `n` Python's `read(4*n)` reads the stream remainder and
`unpack("<", ...)` then demands zero bytes. -/
def branch83 (m : UMetadata) (s : ByteStream) : Except UmdError (UMetadata × ByteStream) :=
  match readExact s 15 with
  | .error e => .error e
  | .ok (bs, s1) =>
    let i1 := sIntLE ((bs.drop 2).take 4)
    let i2 := sIntLE ((bs.drop 7).take 4)
    let raw := sIntLE ((bs.drop 11).take 4)
    if i1 = i2 then
      let n := pyTruncDiv (raw - 9) 4
      if n < 0 then
        let r := bsRead s1 (4 * n)
        if r.1 = [] then .ok ({ m with chapter_offsets := some [] }, r.2)
        else .error .structError
      else
        match readExact s1 (4 * n.toNat) with
        | .error e => .error e
        | .ok (vb, s2) =>
          let offs := (decodeI32s vb).map (fun x => pyTruncDiv x 2)
          .ok ({ m with chapter_offsets := some offs }, s2)
    else .error .assertionError

/-- The inner `while stream.tell() < end` loop of block 0x84: a 1-byte
length prefix then that many bytes decoded as UTF-16LE, appended in
read order.  Negative length prefixes make `read` consume the stream
remainder, as in Python. -/
def readTitlesLoop (fuel : Nat) (endPos : Int) (acc : List (List Nat)) (s : ByteStream) :
    Except UmdError (List (List Nat) × ByteStream) :=
  match fuel with
  | 0 => .error .outOfFuel
  | fuel + 1 =>
    if (s.pos : Int) < endPos then
      match readExact s 1 with
      | .error e => .error e
      | .ok (lb, s1) =>
        let len := sIntLE lb
        let r := bsRead s1 len
        match utf16leDecode r.1 with
        | none => .error .unicodeError
        | some t => readTitlesLoop fuel endPos (acc ++ [t]) r.2
    else .ok (acc, s)

/-- Block 0x84 (chapter titles): `h1, i1, b1, i2, title_len =
unpack("<hibii", read(15))`; `assert i1 == i2`;
`end = tell() + title_len - 9`; then the title loop. -/
def branch84 (m : UMetadata) (s : ByteStream) : Except UmdError (UMetadata × ByteStream) :=
  match readExact s 15 with
  | .error e => .error e
  | .ok (bs, s1) =>
    let i1 := sIntLE ((bs.drop 2).take 4)
    let i2 := sIntLE ((bs.drop 7).take 4)
    let titleLen := sIntLE ((bs.drop 11).take 4)
    if i1 = i2 then
      match readTitlesLoop (s1.data.length + 1) ((s1.pos : Int) + (titleLen - 9)) [] s1 with
      | .error e => .error e
      | .ok (titles, s2) => .ok ({ m with chapter_titles := some titles }, s2)
    else .error .assertionError

/-- The `while True` block loop of `read_metadata`: read
`splitter, block_type_byte = unpack("<cH", read(3))`, `assert splitter == b'#'`,
dispatch on the tag.  A tag matching no branch falls through the
`if`/`elif` chain and the loop silently continues with the next record.
Tag 0x84 breaks the loop. -/
def readMetadataLoop (fuel : Nat) (m : UMetadata) (s : ByteStream) :
    Except UmdError (UMetadata × ByteStream) :=
  match fuel with
  | 0 => .error .outOfFuel
  | fuel + 1 =>
    match readExact s 3 with
    | .error e => .error e
    | .ok (hdr, s1) =>
      if hdr.take 1 = [0x23] then
        let tag := leVal (hdr.drop 1)
        if tag = 0x01 then
          match branch01 m s1 with
          | .error e => .error e
          | .ok (m1, s2) => readMetadataLoop fuel m1 s2
        else if 0x02 ≤ tag ∧ tag ≤ 0x09 then
          match branchText tag m s1 with
          | .error e => .error e
          | .ok (m1, s2) => readMetadataLoop fuel m1 s2
        else if tag = 0x0b then
          match branch0b m s1 with
          | .error e => .error e
          | .ok (m1, s2) => readMetadataLoop fuel m1 s2
        else if tag = 0x83 then
          match branch83 m s1 with
          | .error e => .error e
          | .ok (m1, s2) => readMetadataLoop fuel m1 s2
        else if tag = 0x84 then
          branch84 m s1
        else
          readMetadataLoop fuel m s1
      else .error .assertionError

/-- `UMDFile.read_metadata` (no-offset path): check the 4-byte magic
(`ValueError` on mismatch — a short read simply compares unequal), run
the block loop, record `body_offset = tell()`, then the success log line
subscripts `metadata['title']` and the category check subscripts
`metadata['category']` (each a `KeyError` when the block never
appeared); a non-`"Novel"` category only logs a warning.  Returns the
metadata and `stream.tell()`. -/
def read_metadata (s : ByteStream) : Except UmdError (UMetadata × Nat) :=
  let r := bsRead s 4
  if r.1 = [0x89, 0x9b, 0x9a, 0xde] then
    match readMetadataLoop (s.data.length + 1) {} r.2 with
    | .error e => .error e
    | .ok (m, s1) =>
      let m1 := { m with body_offset := some s1.pos }
      match m1.title with
      | none => .error .keyError
      | some _ =>
        match m1.category with
        | none => .error .keyError
        | some _ => .ok (m1, s1.pos)
  else .error .valueError

/-- The `while True` loop of `UMDFile.read_content`.  The current
`splitter` byte string was read *before* the iteration.  A `#` record
reads a signed 16-bit sub-type; 0x81 breaks, 0xf1 and 0x0a consume fixed
payloads, any other sub-type consumes nothing; then the next splitter is
read.  A `$` record reads the sequence index and raw block length,
appends the index, decompresses the payload and appends it, then reads
the next splitter.  Any other splitter (including `b''` at end of
stream) matches no branch and the loop retries with identical state:
the Python loop spins forever, which the fuel model renders as
`outOfFuel` for every fuel. -/
def readContentLoop (d : List Nat → Option (List Nat)) :
    Nat → List Nat → ByteStream → List (List Nat) → List Int →
    Except UmdError (List (List Nat) × List Int × ByteStream)
  | 0, _, _, _, _ => .error .outOfFuel
  | fuel + 1, sp, s, acc, rnds =>
    if sp = [0x23] then
      match readExact s 2 with
      | .error e => .error e
      | .ok (tb, s1) =>
        let endType := sIntLE tb
        if endType = 0x81 then .ok (acc, rnds, s1)
        else if endType = 0xf1 then
          match readExact s1 18 with
          | .error e => .error e
          | .ok (_, s2) =>
            let r := bsRead s2 1
            readContentLoop d fuel r.1 r.2 acc rnds
        else if endType = 0x0a then
          match readExact s1 6 with
          | .error e => .error e
          | .ok (_, s2) =>
            let r := bsRead s2 1
            readContentLoop d fuel r.1 r.2 acc rnds
        else
          let r := bsRead s1 1
          readContentLoop d fuel r.1 r.2 acc rnds
    else if sp = [0x24] then
      match readExact s 8 with
      | .error e => .error e
      | .ok (hb, s1) =>
        let i := sIntLE (hb.take 4)
        let rawBlockLength := sIntLE (hb.drop 4)
        let r := bsRead s1 (rawBlockLength - 9)
        match d r.1 with
        | none => .error .zlibError
        | some dec =>
          let r2 := bsRead r.2 1
          readContentLoop d fuel r2.1 r2.2 (acc ++ [dec]) (rnds ++ [i])
    else
      readContentLoop d fuel sp s acc rnds

/-- The compressed-segment payloads of the body record stream, in the
order they are read, together with the stream position after the
end-of-body record.  This mirrors the control flow of the content loop
but collects the raw (still compressed) `$`-record payloads only; it is
the reference order for the body-reassembly theorem. -/
def segmentsOf : Nat → List Nat → ByteStream → Option (List (List Nat) × ByteStream)
  | 0, _, _ => none
  | fuel + 1, sp, s =>
    if sp = [0x23] then
      match readExact s 2 with
      | .error _ => none
      | .ok (tb, s1) =>
        let endType := sIntLE tb
        if endType = 0x81 then some ([], s1)
        else if endType = 0xf1 then
          match readExact s1 18 with
          | .error _ => none
          | .ok (_, s2) =>
            let r := bsRead s2 1
            segmentsOf fuel r.1 r.2
        else if endType = 0x0a then
          match readExact s1 6 with
          | .error _ => none
          | .ok (_, s2) =>
            let r := bsRead s2 1
            segmentsOf fuel r.1 r.2
        else
          let r := bsRead s1 1
          segmentsOf fuel r.1 r.2
    else if sp = [0x24] then
      match readExact s 8 with
      | .error _ => none
      | .ok (hb, s1) =>
        let r := bsRead s1 (sIntLE (hb.drop 4) - 9)
        let r2 := bsRead r.2 1
        (segmentsOf fuel r2.1 r2.2).map (fun p => (r.1 :: p.1, p.2))
    else
      segmentsOf fuel sp s

/-- The code after the content loop breaks: `h, i1, b, i2, raw_n_block =
unpack("<hibii", read(15))` (the redundant pair `i1`, `i2` is *not*
compared), `n = int((raw_n_block - 9) / 4)`, the trailing index table is
read, `assert tuple(rnd_lst) == rnd_lst2`, and the accumulated
decompressed bytes are joined and decoded as UTF-16LE. -/
def readContentFinish (cl : List (List Nat)) (rl : List Int) (s : ByteStream) :
    Except UmdError (List Nat × Nat) :=
  match readExact s 15 with
  | .error e => .error e
  | .ok (bs, s1) =>
    let raw := sIntLE ((bs.drop 11).take 4)
    let n := pyTruncDiv (raw - 9) 4
    let decode := fun (rl2 : List Int) (s2 : ByteStream) =>
      if rl = rl2 then
        match utf16leDecode cl.flatten with
        | none => .error .unicodeError
        | some body => .ok (body, s2.pos)
      else (.error .assertionError : Except UmdError (List Nat × Nat))
    if n < 0 then
      let r := bsRead s1 (4 * n)
      if r.1 = [] then decode [] r.2 else .error .structError
    else
      match readExact s1 (4 * n.toNat) with
      | .error e => .error e
      | .ok (vb, s2) => decode (decodeI32s vb) s2

/-- `UMDFile.read_content` (no-offset path): read the first splitter
byte, run the record loop with ample fuel, then the trailer check and
body decode.  Returns the body text and `stream.tell()`. -/
def read_content (d : List Nat → Option (List Nat)) (s : ByteStream) :
    Except UmdError (List Nat × Nat) :=
  let r := bsRead s 1
  match readContentLoop d (s.data.length + 1) r.1 r.2 [] [] with
  | .error e => .error e
  | .ok (cl, rl, s1) => readContentFinish cl rl s1

/-- `UMDFile.read_cover` (no-offset path): an empty read means no cover;
otherwise a signed 16-bit tag is read, and only tag 0x82 yields cover
bytes — `b1, b2, b3, i1, b4, i2, raw_cover_length = unpack("<bbbibii",
read(16))` (the redundant pair `i1`, `i2` is *not* compared) followed by
`read(raw_cover_length - 9)`.  Any other tag returns no cover. -/
def read_cover (s : ByteStream) : Except UmdError (Option (List Nat) × Nat) :=
  let r := bsRead s 1
  if r.1 = [] then .ok (none, r.2.pos)
  else
    match readExact r.2 2 with
    | .error e => .error e
    | .ok (tb, s1) =>
      if sIntLE tb = 0x82 then
        match readExact s1 16 with
        | .error e => .error e
        | .ok (hb, s2) =>
          let rawCoverLength := sIntLE ((hb.drop 12).take 4)
          let rc := bsRead s2 (rawCoverLength - 9)
          .ok (some rc.1, rc.2.pos)
      else .ok (none, s1.pos)

/-- One chapter of the assembled document. -/
structure Chapter where
  title : List Nat
  content : List Nat
deriving DecidableEq, Repr

/-- Python slice-boundary normalisation: negative indices count from the
end, and boundaries clamp to `[0, len]`. -/
def pyBound (len : Nat) (a : Int) : Nat :=
  if a < 0 then (if a + len < 0 then 0 else (a + len).toNat)
  else min a.toNat len

/-- Python `s[a:b]`. -/
def pySlice (s : List Nat) (a b : Int) : List Nat :=
  (s.take (pyBound s.length b)).drop (pyBound s.length a)

/-- Python `s[a:]`. -/
def pySliceFrom (s : List Nat) (a : Int) : List Nat :=
  s.drop (pyBound s.length a)

/-- The chapter loop of `from_stream`, from global chapter index `i`:
for each remaining title, if `i + 1 == len(offsets)` slice to the end of
the body, else slice `body[offsets[i]:offsets[i+1]]`; a tuple subscript
out of range raises `IndexError`. -/
def assembleFrom (offsets : List Int) (body : List Nat) :
    Nat → List (List Nat) → Except UmdError (List Chapter)
  | _, [] => .ok []
  | i, t :: rest =>
    if i + 1 = offsets.length then
      match offsets[i]? with
      | none => .error .indexError
      | some a =>
        match assembleFrom offsets body (i + 1) rest with
        | .error e => .error e
        | .ok chs => .ok (⟨t, pySliceFrom body a⟩ :: chs)
    else
      match offsets[i]?, offsets[i + 1]? with
      | some a, some b =>
        match assembleFrom offsets body (i + 1) rest with
        | .error e => .error e
        | .ok chs => .ok (⟨t, pySlice body a b⟩ :: chs)
      | _, _ => .error .indexError

/-- The chapter-assembly loop of `UMDFile.from_stream`, given the
decoded `chapter_offsets`, `chapter_titles` and body text. -/
def assembleChapters (offsets : List Int) (titles : List (List Nat)) (body : List Nat) :
    Except UmdError (List Chapter) :=
  assembleFrom offsets body 0 titles

/-- The decoded document of `from_stream`. -/
structure UMDDoc where
  meta : UMetadata
  chapters : List Chapter
  cover : Option (List Nat)
deriving DecidableEq, Repr

/-- `UMDFile.from_stream`: metadata, then content from the returned
offset, then cover, then the chapter loop.  A missing
`chapter_offsets` key is only touched when at least one title exists
(`KeyError` then); `chapter_titles` always exists after a successful
`read_metadata`. -/
def from_stream (d : List Nat → Option (List Nat)) (data : List Nat) :
    Except UmdError UMDDoc :=
  match read_metadata ⟨data, 0⟩ with
  | .error e => .error e
  | .ok (m, off1) =>
    match read_content d ⟨data, off1⟩ with
    | .error e => .error e
    | .ok (body, off2) =>
      match read_cover ⟨data, off2⟩ with
      | .error e => .error e
      | .ok (cover, _) =>
        let titles := m.chapter_titles.getD []
        match m.chapter_offsets with
        | some offsets =>
          match assembleChapters offsets titles body with
          | .error e => .error e
          | .ok chs => .ok ⟨m, chs, cover⟩
        | none =>
          match titles with
          | [] => .ok ⟨m, [], cover⟩
          | _ => .error .keyError

/-! ## Helper lemmas about streams and byte-list decomposition -/

lemma takeApp {α : Type} (xs ys : List α) {n : Nat} (h : xs.length = n) :
    (xs ++ ys).take n = xs := by
  subst h
  simp

lemma dropApp {α : Type} (xs ys : List α) {n : Nat} (h : xs.length = n) :
    (xs ++ ys).drop n = ys := by
  subst h
  simp

lemma readExact_append (pre xs rest : List Nat) {n : Nat} (h : xs.length = n) :
    readExact ⟨pre ++ (xs ++ rest), pre.length⟩ n =
      .ok (xs, ⟨pre ++ (xs ++ rest), pre.length + n⟩) := by
  have hn : ¬((n : Int) < 0) := by omega
  simp only [readExact, bsRead, dropApp pre (xs ++ rest) rfl]
  simp [hn, takeApp xs rest h, h]

lemma stream_shift (pre xs rest : List Nat) {n : Nat} (h : xs.length = n) :
    (⟨pre ++ (xs ++ rest), pre.length + n⟩ : ByteStream) =
      ⟨(pre ++ xs) ++ rest, (pre ++ xs).length⟩ := by
  subst h
  simp [List.append_assoc]

lemma flatten_length_of_chunks {ll : List (List Nat)} (h : ∀ l ∈ ll, l.length = 4) :
    ll.flatten.length = 4 * ll.length := by
  induction ll with
  | nil => simp
  | cons l rest ih =>
    have hl : l.length = 4 := h l (by simp)
    have hr := ih (fun x hx => h x (by simp [hx]))
    simp [hl, hr]
    ring

lemma list_of_length_four {l : List Nat} (h : l.length = 4) :
    ∃ a b c d, l = [a, b, c, d] := by
  match l, h with
  | [a, b, c, d], _ => exact ⟨a, b, c, d, rfl⟩

lemma chunks4_flatten {ll : List (List Nat)} (h : ∀ l ∈ ll, l.length = 4) :
    chunks4 ll.flatten = ll := by
  induction ll with
  | nil => simp [chunks4]
  | cons l rest ih =>
    obtain ⟨a, b, c, d, rfl⟩ := list_of_length_four (h l (by simp))
    have hr := ih (fun x hx => h x (by simp [hx]))
    simp [chunks4, hr]

lemma pyTruncDiv_four_mul (k : Nat) : pyTruncDiv ((9 + 4 * (k : Int)) - 9) 4 = k := by
  have h9 : (9 + 4 * (k : Int)) - 9 = 4 * (k : Int) := by ring
  rw [h9]
  simp [pyTruncDiv]

/-! ## Behaviour of the individual metadata-block decoders -/

lemma branch83_mismatch (m : UMetadata) (pre hb rest : List Nat)
    (hlen : hb.length = 15)
    (hpair : sIntLE ((hb.drop 2).take 4) ≠ sIntLE ((hb.drop 7).take 4)) :
    branch83 m ⟨pre ++ (hb ++ rest), pre.length⟩ = .error .assertionError := by
  simp only [branch83]
  rw [readExact_append pre hb rest hlen]
  simp [hpair]

lemma branch84_mismatch (m : UMetadata) (pre hb rest : List Nat)
    (hlen : hb.length = 15)
    (hpair : sIntLE ((hb.drop 2).take 4) ≠ sIntLE ((hb.drop 7).take 4)) :
    branch84 m ⟨pre ++ (hb ++ rest), pre.length⟩ = .error .assertionError := by
  simp only [branch84]
  rw [readExact_append pre hb rest hlen]
  simp [hpair]

lemma branch01_no_pair_check (m : UMetadata) (pre hb rest : List Nat)
    (hlen : hb.length = 5)
    (hcb : sIntLE ((hb.drop 2).take 1) = 1) :
    branch01 m ⟨pre ++ (hb ++ rest), pre.length⟩ =
      .ok ({ m with category := some "Novel" },
           ⟨pre ++ (hb ++ rest), pre.length + 5⟩) := by
  simp only [branch01]
  rw [readExact_append pre hb rest hlen]
  simp [hcb]

lemma branch83_ok (m : UMetadata) (pre hb rest : List Nat) (vll : List (List Nat))
    (hlen : hb.length = 15)
    (hpair : sIntLE ((hb.drop 2).take 4) = sIntLE ((hb.drop 7).take 4))
    (hraw : sIntLE ((hb.drop 11).take 4) = 9 + 4 * (vll.length : Int))
    (hvll : ∀ l ∈ vll, l.length = 4) :
    branch83 m ⟨pre ++ (hb ++ (vll.flatten ++ rest)), pre.length⟩ =
      .ok ({ m with chapter_offsets := some ((vll.map sIntLE).map (fun x => pyTruncDiv x 2)) },
           ⟨pre ++ (hb ++ (vll.flatten ++ rest)), pre.length + 15 + 4 * vll.length⟩) := by
  have hflat : vll.flatten.length = 4 * vll.length := flatten_length_of_chunks hvll
  simp only [branch83]
  rw [readExact_append pre hb (vll.flatten ++ rest) hlen]
  simp only [hpair, if_pos rfl, hraw, pyTruncDiv_four_mul]
  have hneg : ¬((vll.length : Int) < 0) := by omega
  rw [if_neg hneg]
  rw [stream_shift pre hb (vll.flatten ++ rest) hlen]
  have htoNat : ((vll.length : Int)).toNat = vll.length := Int.toNat_natCast _
  rw [htoNat]
  rw [if_pos trivial, readExact_append (pre ++ hb) vll.flatten rest hflat]
  simp [decodeI32s, chunks4_flatten hvll, List.append_assoc, hlen]

/-! ## Behaviour of the content-trailer check and the cover decoder -/

lemma readContentFinish_cases (cl : List (List Nat)) (rl : List Int)
    (pre hb rest : List Nat) (idxll : List (List Nat))
    (hlen : hb.length = 15)
    (hraw : sIntLE ((hb.drop 11).take 4) = 9 + 4 * (idxll.length : Int))
    (hidx : ∀ l ∈ idxll, l.length = 4) :
    readContentFinish cl rl ⟨pre ++ (hb ++ (idxll.flatten ++ rest)), pre.length⟩ =
      (if rl = idxll.map sIntLE then
        match utf16leDecode cl.flatten with
        | none => .error .unicodeError
        | some body => .ok (body, pre.length + 15 + 4 * idxll.length)
      else .error .assertionError) := by
  have hflat : idxll.flatten.length = 4 * idxll.length := flatten_length_of_chunks hidx
  simp only [readContentFinish]
  rw [readExact_append pre hb (idxll.flatten ++ rest) hlen]
  simp only [hraw, pyTruncDiv_four_mul]
  have hneg : ¬((idxll.length : Int) < 0) := by omega
  rw [if_neg hneg]
  rw [stream_shift pre hb (idxll.flatten ++ rest) hlen]
  have htoNat : ((idxll.length : Int)).toNat = idxll.length := Int.toNat_natCast _
  rw [htoNat]
  rw [readExact_append (pre ++ hb) idxll.flatten rest hflat]
  simp only [decodeI32s, chunks4_flatten hidx]
  by_cases hrl : rl = idxll.map sIntLE
  · cases hdec : utf16leDecode cl.flatten with
    | none => simp [hrl, hdec]
    | some body => simp [hrl, hdec, hlen, Nat.add_assoc]
  · simp [hrl]

lemma read_cover_eof (s : ByteStream) (h : s.data.length ≤ s.pos) :
    read_cover s = .ok (none, s.pos) := by
  simp [read_cover, bsRead, List.drop_eq_nil_of_le h]

lemma drop_shift {data xs rest : List Nat} {p n : Nat}
    (hdrop : data.drop p = xs ++ rest) (h : xs.length = n) :
    data.drop (p + n) = rest := by
  rw [← List.drop_drop, hdrop, dropApp xs rest h]

lemma readExact_drop {s : ByteStream} {xs rest : List Nat} {n : Nat}
    (hdrop : s.data.drop s.pos = xs ++ rest) (h : xs.length = n) :
    readExact s n = .ok (xs, ⟨s.data, s.pos + n⟩) := by
  have hn : ¬((n : Int) < 0) := by omega
  simp only [readExact, bsRead, hdrop]
  simp [hn, takeApp xs rest h, h]

lemma read_cover_other_tag (pre rest : List Nat) (b0 t0 t1 : Nat)
    (htag : sIntLE [t0, t1] ≠ 0x82) :
    read_cover ⟨pre ++ (b0 :: t0 :: t1 :: rest), pre.length⟩ =
      .ok (none, pre.length + 3) := by
  have h0 : (pre ++ (b0 :: t0 :: t1 :: rest)).drop pre.length = b0 :: t0 :: t1 :: rest :=
    dropApp pre _ rfl
  have h0a : (pre ++ (b0 :: t0 :: t1 :: rest)).drop pre.length = [b0] ++ (t0 :: t1 :: rest) := h0
  have h1 : (pre ++ (b0 :: t0 :: t1 :: rest)).drop (pre.length + 1) = [t0, t1] ++ rest :=
    drop_shift h0a rfl
  simp only [read_cover, bsRead, h0]
  norm_num
  rw [readExact_drop (n := 2) h1 (by rfl)]
  simp [htag, Nat.add_assoc]

lemma read_cover_82 (pre hb rest : List Nat) (b0 : Nat)
    (hlen : hb.length = 16)
    (h9 : 9 ≤ sIntLE ((hb.drop 12).take 4))
    (hrest : (sIntLE ((hb.drop 12).take 4) - 9).toNat ≤ rest.length) :
    read_cover ⟨pre ++ (b0 :: 0x82 :: 0x00 :: (hb ++ rest)), pre.length⟩ =
      .ok (some (rest.take (sIntLE ((hb.drop 12).take 4) - 9).toNat),
           pre.length + 19 + (sIntLE ((hb.drop 12).take 4) - 9).toNat) := by
  have h0 : (pre ++ (b0 :: 0x82 :: 0x00 :: (hb ++ rest))).drop pre.length =
      b0 :: 0x82 :: 0x00 :: (hb ++ rest) := dropApp pre _ rfl
  have h0a : (pre ++ (b0 :: 0x82 :: 0x00 :: (hb ++ rest))).drop pre.length =
      [b0] ++ (0x82 :: 0x00 :: (hb ++ rest)) := h0
  have h1 : (pre ++ (b0 :: 0x82 :: 0x00 :: (hb ++ rest))).drop (pre.length + 1) =
      [0x82, 0x00] ++ (hb ++ rest) := drop_shift h0a rfl
  have h2 : (pre ++ (b0 :: 0x82 :: 0x00 :: (hb ++ rest))).drop (pre.length + 1 + 2) =
      hb ++ rest := drop_shift h1 rfl
  have h3 : (pre ++ (b0 :: 0x82 :: 0x00 :: (hb ++ rest))).drop (pre.length + 1 + 2 + 16) =
      rest := drop_shift h2 hlen
  have htag : sIntLE [0x82, 0x00] = 0x82 := by decide
  have hneg : ¬(sIntLE ((hb.drop 12).take 4) - 9 < 0) := by omega
  simp only [read_cover, bsRead, h0]
  norm_num
  rw [readExact_drop (n := 2) h1 (by rfl)]
  simp only [htag, if_pos rfl]
  rw [readExact_drop (n := 16) h2 hlen]
  simp only [bsRead, h3, hneg, if_false]
  have hcond : ¬(sIntLE ((hb.drop 12).take 4) < 9) := by omega
  simp [hcond, List.length_take, Nat.min_eq_left hrest, Nat.add_assoc]

/-! ## Behaviour of the chapter-assembly loop -/

lemma assembleFrom_indexError (offsets : List Int) (body : List Nat) :
    ∀ (ts : List (List Nat)) (i : Nat),
      offsets.length < i + ts.length → i ≤ offsets.length →
      assembleFrom offsets body i ts = .error .indexError := by
  intro ts
  induction ts with
  | nil =>
    intro i h1 h2
    exfalso
    simp at h1
    omega
  | cons t rest ih =>
    intro i h1 h2
    simp only [assembleFrom]
    by_cases hcase : i + 1 = offsets.length
    · have hi : i < offsets.length := by omega
      rw [List.getElem?_eq_getElem hi]
      rw [if_pos hcase]
      rw [ih (i + 1) (by simp at h1 ⊢; omega) (by omega)]
    · by_cases hi : i < offsets.length
      · have hi1 : i + 1 < offsets.length := by omega
        rw [if_neg hcase, List.getElem?_eq_getElem hi, List.getElem?_eq_getElem hi1]
        rw [ih (i + 1) (by simp at h1 ⊢; omega) (by omega)]
      · have hnone : offsets[i]? = none := by
          rw [List.getElem?_eq_none_iff]
          omega
        rw [if_neg hcase, hnone]

lemma assembleFrom_ok (offsets : List Int) (body : List Nat) :
    ∀ (ts : List (List Nat)) (i : Nat),
      i + ts.length ≤ offsets.length →
      ∃ chs, assembleFrom offsets body i ts = .ok chs ∧ chs.length = ts.length ∧
        ∀ j, j < ts.length →
          chs[j]? = some ⟨ts.getD j [],
            if i + j + 1 = offsets.length then pySliceFrom body (offsets.getD (i + j) 0)
            else pySlice body (offsets.getD (i + j) 0) (offsets.getD (i + j + 1) 0)⟩ := by
  intro ts
  induction ts with
  | nil =>
    intro i _
    exact ⟨[], by simp [assembleFrom], by simp, fun j hj => absurd hj (by simp)⟩
  | cons t rest ih =>
    intro i h
    simp only [List.length_cons] at h
    by_cases hcase : i + 1 = offsets.length
    · have hrest : rest = [] := by
        have : rest.length = 0 := by omega
        exact List.length_eq_zero.mp this
      subst hrest
      have hi : i < offsets.length := by omega
      refine ⟨[⟨t, pySliceFrom body (offsets.getD i 0)⟩], ?_, by simp, ?_⟩
      · simp only [assembleFrom, if_pos hcase, List.getElem?_eq_getElem hi]
        simp [List.getD_eq_getElem?_getD, List.getElem?_eq_getElem hi]
      · intro j hj
        cases j with
        | zero => simp [hcase]
        | succ j => simp at hj
    · have hi : i < offsets.length := by omega
      have hi1 : i + 1 < offsets.length := by omega
      obtain ⟨chs, hrec, hlen, hchar⟩ := ih (i + 1) (by omega)
      refine ⟨⟨t, pySlice body (offsets.getD i 0) (offsets.getD (i + 1) 0)⟩ :: chs,
        ?_, by simp [hlen], ?_⟩
      · simp only [assembleFrom, if_neg hcase, List.getElem?_eq_getElem hi,
          List.getElem?_eq_getElem hi1, hrec]
        simp [List.getD_eq_getElem?_getD, List.getElem?_eq_getElem hi,
          List.getElem?_eq_getElem hi1]
      · intro j hj
        cases j with
        | zero => simp [hcase]
        | succ j =>
          have hj' : j < rest.length := by simp at hj; omega
          have hc := hchar j hj'
          have e1 : i + 1 + j = i + (j + 1) := by omega
          rw [e1] at hc
          simpa using hc

/-! ## Behaviour of the content loop -/

lemma readContentLoop_spin (d : List Nat → Option (List Nat)) :
    ∀ (fuel : Nat) (sp : List Nat) (s : ByteStream)
      (acc : List (List Nat)) (rnds : List Int),
      sp ≠ [0x23] → sp ≠ [0x24] →
      readContentLoop d fuel sp s acc rnds = .error .outOfFuel := by
  intro fuel
  induction fuel with
  | zero =>
    intro sp s acc rnds _ _
    rfl
  | succ n ih =>
    intro sp s acc rnds h1 h2
    simp only [readContentLoop, if_neg h1, if_neg h2]
    exact ih sp s acc rnds h1 h2

lemma mapM_option_cons (f : List Nat → Option (List Nat)) (x : List Nat)
    (xs : List (List Nat)) (y : List Nat) (ys : List (List Nat))
    (hx : f x = some y) (hxs : xs.mapM f = some ys) :
    (x :: xs).mapM f = some (y :: ys) := by
  rw [List.mapM_cons, hx, hxs]
  rfl

lemma readContentLoop_segments (d : List Nat → Option (List Nat)) :
    ∀ (fuel : Nat) (sp : List Nat) (s : ByteStream) (acc : List (List Nat)) (rnds : List Int)
      (cl : List (List Nat)) (rl : List Int) (s2 : ByteStream),
      readContentLoop d fuel sp s acc rnds = .ok (cl, rl, s2) →
      ∃ raws ds, segmentsOf fuel sp s = some (raws, s2) ∧
        raws.mapM d = some ds ∧ cl = acc ++ ds := by
  intro fuel
  induction fuel with
  | zero =>
    intro sp s acc rnds cl rl s2 h
    simp [readContentLoop] at h
  | succ n ih =>
    intro sp s acc rnds cl rl s2 h
    by_cases hsp : sp = [0x23]
    · simp only [readContentLoop, if_pos hsp] at h
      simp only [segmentsOf, if_pos hsp]
      cases hre : readExact s 2 with
      | error e => rw [hre] at h; simp at h
      | ok p =>
        obtain ⟨tb, s1⟩ := p
        rw [hre] at h
        by_cases h81 : sIntLE tb = 0x81
        · simp only [if_pos h81] at h ⊢
          simp only [Except.ok.injEq, Prod.mk.injEq] at h
          obtain ⟨hacc, hrl, hs⟩ := h
          exact ⟨[], [], by rw [hs], by rfl, by simp [hacc]⟩
        · by_cases hf1 : sIntLE tb = 0xf1
          · simp only [if_neg h81, if_pos hf1] at h ⊢
            cases hre2 : readExact s1 18 with
            | error e => rw [hre2] at h; simp at h
            | ok p2 =>
              obtain ⟨pb, s3⟩ := p2
              rw [hre2] at h
              obtain ⟨raws, ds, hseg, hmap, hcl⟩ := ih _ _ _ _ _ _ _ h
              exact ⟨raws, ds, by simp [hseg], hmap, hcl⟩
          · by_cases h0a : sIntLE tb = 0x0a
            · simp only [if_neg h81, if_neg hf1, if_pos h0a] at h ⊢
              cases hre2 : readExact s1 6 with
              | error e => rw [hre2] at h; simp at h
              | ok p2 =>
                obtain ⟨pb, s3⟩ := p2
                rw [hre2] at h
                obtain ⟨raws, ds, hseg, hmap, hcl⟩ := ih _ _ _ _ _ _ _ h
                exact ⟨raws, ds, by simp [hseg], hmap, hcl⟩
            · simp only [if_neg h81, if_neg hf1, if_neg h0a] at h ⊢
              obtain ⟨raws, ds, hseg, hmap, hcl⟩ := ih _ _ _ _ _ _ _ h
              exact ⟨raws, ds, by simp [hseg], hmap, hcl⟩
    · by_cases hsp2 : sp = [0x24]
      · simp only [readContentLoop, if_neg hsp, if_pos hsp2] at h
        simp only [segmentsOf, if_neg hsp, if_pos hsp2]
        cases hre : readExact s 8 with
        | error e => rw [hre] at h; simp at h
        | ok p =>
          obtain ⟨hb, s1⟩ := p
          rw [hre] at h
          dsimp only at h
          dsimp only
          cases hd : d (bsRead s1 (sIntLE (hb.drop 4) - 9)).1 with
          | none => rw [hd] at h; simp at h
          | some dec =>
            rw [hd] at h
            obtain ⟨raws, ds, hseg, hmap, hcl⟩ := ih _ _ _ _ _ _ _ h
            refine ⟨(bsRead s1 (sIntLE (hb.drop 4) - 9)).1 :: raws, dec :: ds, ?_, ?_, ?_⟩
            · simp [hseg]
            · exact mapM_option_cons d _ raws dec ds hd hmap
            · simp [hcl]
      · simp only [readContentLoop, if_neg hsp, if_neg hsp2] at h
        obtain ⟨raws, ds, hseg, hmap, hcl⟩ := ih _ _ _ _ _ _ _ h
        exact ⟨raws, ds, by simp [segmentsOf, if_neg hsp, if_neg hsp2, hseg], hmap, hcl⟩

lemma readContentFinish_ok_decode (cl : List (List Nat)) (rl : List Int) (s : ByteStream)
    (body : List Nat) (off : Nat)
    (h : readContentFinish cl rl s = .ok (body, off)) :
    utf16leDecode cl.flatten = some body := by
  simp only [readContentFinish] at h
  cases hre : readExact s 15 with
  | error e => rw [hre] at h; simp at h
  | ok p =>
    obtain ⟨bs, s1⟩ := p
    rw [hre] at h
    dsimp only at h
    split at h
    · split at h
      · split at h
        · cases hdec : utf16leDecode cl.flatten with
          | none => rw [hdec] at h; simp at h
          | some b =>
            rw [hdec] at h
            simp only [Except.ok.injEq, Prod.mk.injEq] at h
            rw [h.1]
        · simp at h
      · simp at h
    · cases hre2 : readExact s1 (4 * (pyTruncDiv (sIntLE ((bs.drop 11).take 4) - 9) 4).toNat) with
      | error e => rw [hre2] at h; simp at h
      | ok p2 =>
        obtain ⟨vb, s2⟩ := p2
        rw [hre2] at h
        dsimp only at h
        split at h
        · cases hdec : utf16leDecode cl.flatten with
          | none => rw [hdec] at h; simp at h
          | some b =>
            rw [hdec] at h
            simp only [Except.ok.injEq, Prod.mk.injEq] at h
            rw [h.1]
        · simp at h

/-! ## Unknown metadata tags are skipped, not rejected -/

lemma readMetadataLoop_skip (fuel : Nat) (m : UMetadata) (pre rest : List Nat) (t0 t1 : Nat)
    (h1 : ¬(t0 + 256 * t1 = 0x01))
    (h2 : ¬(0x02 ≤ t0 + 256 * t1 ∧ t0 + 256 * t1 ≤ 0x09))
    (h3 : ¬(t0 + 256 * t1 = 0x0b))
    (h4 : ¬(t0 + 256 * t1 = 0x83))
    (h5 : ¬(t0 + 256 * t1 = 0x84)) :
    readMetadataLoop (fuel + 1) m ⟨pre ++ (0x23 :: t0 :: t1 :: rest), pre.length⟩ =
      readMetadataLoop fuel m ⟨pre ++ (0x23 :: t0 :: t1 :: rest), pre.length + 3⟩ := by
  have h0 : (pre ++ (0x23 :: t0 :: t1 :: rest)).drop pre.length =
      [0x23, t0, t1] ++ rest := dropApp pre _ rfl
  conv_lhs => rw [readMetadataLoop]
  rw [readExact_drop (n := 3) h0 (by rfl)]
  have hval : leVal [t0, t1] = t0 + 256 * t1 := by simp [leVal]
  simp [hval, h1, h2, h3, h4, h5]

/-! ## Claim theorems -/

/-- **C1** (code bug exhibited).  The claim says category byte 1 decodes to
Novel and category byte 2 decodes to Comic, with non-Novel categories
accepted under a mere warning.  In the source the category dict is
`{0x01: "Novel", "0x02": "Comic"}` — the Comic key is the *string*
`"0x02"` — so a category byte of 2 raises `KeyError` instead of decoding
to Comic: byte 1 yields a completed decode with category "Novel", while
byte 2 aborts `read_metadata` with an error. -/
theorem c1_category_byte_two_raises :
    read_metadata ⟨[0x89, 0x9b, 0x9a, 0xde] ++ ([0x23, 0x01, 0x00] ++ [0, 0, 1, 0, 0]) ++
        ([0x23, 0x02, 0x00] ++ [0, 7, 0x54, 0]) ++
        ([0x23, 0x84, 0x00] ++ [0, 0, 1, 0, 0, 0, 0, 1, 0, 0, 0, 9, 0, 0, 0]), 0⟩ =
      .ok ({ category := some "Novel", title := some [84], chapter_titles := some [],
             body_offset := some 37 }, 37) ∧
    read_metadata ⟨[0x89, 0x9b, 0x9a, 0xde] ++ ([0x23, 0x01, 0x00] ++ [0, 0, 2, 0, 0]), 0⟩ =
      .error .keyError := by
  constructor
  · decide
  · decide

/-- **C2** (counterexample).  The claim says every record carrying a
redundant field pair — including the category block 0x01 — raises
`ConsistencyError` when the two copies differ.  Here is a complete
metadata stream whose category block has redundant halves 5 and 9
(bytes `05 00` vs `09 00`), yet `read_metadata` completes successfully:
the category block's pair is never compared. -/
theorem c2_category_pair_mismatch_not_rejected :
    read_metadata ⟨[0x89, 0x9b, 0x9a, 0xde] ++ ([0x23, 0x01, 0x00] ++ [5, 0, 1, 9, 0]) ++
        ([0x23, 0x02, 0x00] ++ [0, 7, 0x54, 0]) ++
        ([0x23, 0x84, 0x00] ++ [0, 0, 1, 0, 0, 0, 0, 1, 0, 0, 0, 9, 0, 0, 0]), 0⟩ =
      .ok ({ category := some "Novel", title := some [84], chapter_titles := some [],
             body_offset := some 37 }, 37) := by
  decide

/-- **C2 amended**.  Of the five records that carry a redundant field
pair, only the chapter-offsets block (0x83) and the chapter-titles block
(0x84) compare and reject mismatched copies (via `assert i1 == i2`,
an `AssertionError`); the category block (0x01), the end-of-body trailer
and the cover block (0x82) read both copies but never compare them, and
decoding proceeds whatever their values are. -/
theorem c2_redundant_pair_checks :
    (∀ (m : UMetadata) (pre hb rest : List Nat), hb.length = 15 →
      sIntLE ((hb.drop 2).take 4) ≠ sIntLE ((hb.drop 7).take 4) →
      branch83 m ⟨pre ++ (hb ++ rest), pre.length⟩ = .error .assertionError) ∧
    (∀ (m : UMetadata) (pre hb rest : List Nat), hb.length = 15 →
      sIntLE ((hb.drop 2).take 4) ≠ sIntLE ((hb.drop 7).take 4) →
      branch84 m ⟨pre ++ (hb ++ rest), pre.length⟩ = .error .assertionError) ∧
    (∀ (m : UMetadata) (pre hb rest : List Nat), hb.length = 5 →
      sIntLE ((hb.drop 2).take 1) = 1 →
      branch01 m ⟨pre ++ (hb ++ rest), pre.length⟩ =
        .ok ({ m with category := some "Novel" }, ⟨pre ++ (hb ++ rest), pre.length + 5⟩)) ∧
    (∀ (cl : List (List Nat)) (rl : List Int) (pre hb rest : List Nat)
       (idxll : List (List Nat)) (body : List Nat), hb.length = 15 →
      sIntLE ((hb.drop 11).take 4) = 9 + 4 * (idxll.length : Int) →
      (∀ l ∈ idxll, l.length = 4) →
      rl = idxll.map sIntLE →
      utf16leDecode cl.flatten = some body →
      readContentFinish cl rl ⟨pre ++ (hb ++ (idxll.flatten ++ rest)), pre.length⟩ =
        .ok (body, pre.length + 15 + 4 * idxll.length)) ∧
    (∀ (pre hb rest : List Nat) (b0 : Nat), hb.length = 16 →
      9 ≤ sIntLE ((hb.drop 12).take 4) →
      (sIntLE ((hb.drop 12).take 4) - 9).toNat ≤ rest.length →
      read_cover ⟨pre ++ (b0 :: 0x82 :: 0x00 :: (hb ++ rest)), pre.length⟩ =
        .ok (some (rest.take (sIntLE ((hb.drop 12).take 4) - 9).toNat),
             pre.length + 19 + (sIntLE ((hb.drop 12).take 4) - 9).toNat)) := by
  refine ⟨?_, ?_, ?_, ?_, ?_⟩
  · intro m pre hb rest hlen hne
    exact branch83_mismatch m pre hb rest hlen hne
  · intro m pre hb rest hlen hne
    exact branch84_mismatch m pre hb rest hlen hne
  · intro m pre hb rest hlen hcb
    exact branch01_no_pair_check m pre hb rest hlen hcb
  · intro cl rl pre hb rest idxll body hlen hraw hidx hrl hdec
    rw [readContentFinish_cases cl rl pre hb rest idxll hlen hraw hidx, if_pos hrl, hdec]
  · intro pre hb rest b0 hlen h9 hrest
    exact read_cover_82 pre hb rest b0 hlen h9 hrest

/-- Witness for the amended C2 theorem at concrete inputs: a 0x83 and a
0x84 block whose 32-bit pair is (1, 2) are rejected, a category block
with mismatched halves (7, 9) is accepted, a trailer whose pair is
(5, 6) passes the index check, and a cover block whose pair is (4, 7)
yields the cover bytes. -/
theorem c2_redundant_pair_checks_witness :
    branch83 {} ⟨[0, 0, 1, 0, 0, 0, 0, 2, 0, 0, 0, 9, 0, 0, 0], 0⟩ =
      .error .assertionError ∧
    branch84 {} ⟨[0, 0, 1, 0, 0, 0, 0, 2, 0, 0, 0, 9, 0, 0, 0], 0⟩ =
      .error .assertionError ∧
    branch01 {} ⟨[7, 0, 1, 9, 0], 0⟩ =
      .ok ({ category := some "Novel" }, ⟨[7, 0, 1, 9, 0], 5⟩) ∧
    readContentFinish [] [] ⟨[0, 0, 5, 0, 0, 0, 0, 6, 0, 0, 0, 9, 0, 0, 0], 0⟩ =
      .ok ([], 15) ∧
    read_cover ⟨0 :: 0x82 :: 0x00 :: ([1, 2, 3, 4, 0, 0, 0, 5, 7, 0, 0, 0, 12, 0, 0, 0] ++
        [65, 66, 67]), 0⟩ = .ok (some [65, 66, 67], 22) := by
  refine ⟨?_, ?_, ?_, ?_, ?_⟩
  · exact c2_redundant_pair_checks.1 {} []
      [0, 0, 1, 0, 0, 0, 0, 2, 0, 0, 0, 9, 0, 0, 0] [] (by decide) (by decide)
  · exact c2_redundant_pair_checks.2.1 {} []
      [0, 0, 1, 0, 0, 0, 0, 2, 0, 0, 0, 9, 0, 0, 0] [] (by decide) (by decide)
  · exact c2_redundant_pair_checks.2.2.1 {} [] [7, 0, 1, 9, 0] [] (by decide) (by decide)
  · have h := c2_redundant_pair_checks.2.2.2.1 [] [] []
      [0, 0, 5, 0, 0, 0, 0, 6, 0, 0, 0, 9, 0, 0, 0] [] [] []
      (by decide) (by decide) (by decide) (by decide) (by decide)
    simpa using h
  · have h := c2_redundant_pair_checks.2.2.2.2 []
      [1, 2, 3, 4, 0, 0, 0, 5, 7, 0, 0, 0, 12, 0, 0, 0] [65, 66, 67] 0
      (by decide) (by decide) (by decide)
    simpa using h

/-- **C3** (counterexample).  The claim says an unrecognized 16-bit tag
makes `read_metadata` fail with `FormatError`.  Here is a stream whose
second record carries the unhandled tag 0x0a, yet `read_metadata`
continues past it and completes successfully: no branch of the
`if`/`elif` chain matches, so the loop silently proceeds to the next
record. -/
theorem c3_unknown_tag_does_not_raise :
    read_metadata ⟨[0x89, 0x9b, 0x9a, 0xde] ++ [0x23, 0x0a, 0x00] ++
        ([0x23, 0x01, 0x00] ++ [0, 0, 1, 0, 0]) ++
        ([0x23, 0x02, 0x00] ++ [0, 7, 0x54, 0]) ++
        ([0x23, 0x84, 0x00] ++ [0, 0, 1, 0, 0, 0, 0, 1, 0, 0, 0, 9, 0, 0, 0]), 0⟩ =
      .ok ({ category := some "Novel", title := some [84], chapter_titles := some [],
             body_offset := some 40 }, 40) := by
  decide

/-- **C3 amended**.  A block whose 16-bit tag is none of the recognized
metadata tags (0x01, 0x02–0x09, 0x0b, 0x83, 0x84) is skipped: the loop
consumes only the 3 framing bytes (`#` plus the tag) and continues with
the following record, raising nothing at that point. -/
theorem c3_unknown_tag_skipped (fuel : Nat) (m : UMetadata) (pre rest : List Nat)
    (t0 t1 : Nat)
    (h1 : ¬(t0 + 256 * t1 = 0x01))
    (h2 : ¬(0x02 ≤ t0 + 256 * t1 ∧ t0 + 256 * t1 ≤ 0x09))
    (h3 : ¬(t0 + 256 * t1 = 0x0b))
    (h4 : ¬(t0 + 256 * t1 = 0x83))
    (h5 : ¬(t0 + 256 * t1 = 0x84)) :
    readMetadataLoop (fuel + 1) m ⟨pre ++ (0x23 :: t0 :: t1 :: rest), pre.length⟩ =
      readMetadataLoop fuel m ⟨pre ++ (0x23 :: t0 :: t1 :: rest), pre.length + 3⟩ :=
  readMetadataLoop_skip fuel m pre rest t0 t1 h1 h2 h3 h4 h5

/-- Witness for the amended C3 theorem at tag 0x0a. -/
theorem c3_unknown_tag_skipped_witness :
    readMetadataLoop 2 {} ⟨[0x23, 0x0a, 0x00], 0⟩ =
      readMetadataLoop 1 {} ⟨[0x23, 0x0a, 0x00], 3⟩ := by
  have h := c3_unknown_tag_skipped 1 {} [] [] 0x0a 0x00
    (by decide) (by decide) (by decide) (by decide) (by decide)
  simpa using h

/-- **C4** (counterexample).  The claim says a length mismatch between
`chapter_offsets` and `chapter_titles` makes the chapter assembly raise
`DataError`.  With 2 offsets and 1 title the loop over
`enumerate(chapter_titles)` simply stops after the single title and the
assembly completes without any error. -/
theorem c4_shorter_titles_no_error :
    assembleChapters [0, 2] [[97]] [120, 121, 122] = .ok [⟨[97], [120, 121]⟩] := by
  decide

/-- **C4 amended**.  The assembly loop raises no error at all when the
titles are at most as many as the offsets (it produces one chapter per
title); only when the titles outnumber the offsets does it fail, and
then with a tuple-subscript `IndexError`, not a dedicated
`DataError`. -/
theorem c4_assembly_errors (offsets : List Int) (titles : List (List Nat))
    (body : List Nat) :
    (offsets.length < titles.length →
      assembleChapters offsets titles body = .error .indexError) ∧
    (titles.length ≤ offsets.length →
      ∃ chs, assembleChapters offsets titles body = .ok chs ∧
        chs.length = titles.length) := by
  constructor
  · intro h
    exact assembleFrom_indexError offsets body titles 0 (by omega) (by omega)
  · intro h
    obtain ⟨chs, hok, hlen, _⟩ := assembleFrom_ok offsets body titles 0 (by omega)
    exact ⟨chs, hok, hlen⟩

/-- Witness for the amended C4 theorem: one offset with two titles
fails with `IndexError`; two offsets with one title succeed with one
chapter. -/
theorem c4_assembly_errors_witness :
    assembleChapters [0] [[5], [6]] [] = .error .indexError ∧
    (∃ chs, assembleChapters [0, 2] [[97]] [1, 2, 3] = .ok chs ∧ chs.length = 1) := by
  constructor
  · exact (c4_assembly_errors [0] [[5], [6]] []).1 (by decide)
  · exact (c4_assembly_errors [0, 2] [[97]] [1, 2, 3]).2 (by decide)

/-- **C5** (code bug exhibited).  The claim says `read_content` always
makes progress: it returns or raises immediately on any finite stream.
In the source the `while True` loop consults the `splitter` byte read
before the iteration, and when that byte is neither `#` nor `$`
(including the empty read `b''` at a premature end of stream) no branch
matches and the loop body ends without reading anything: the loop
retries forever with identical state.  In the fuel model the loop
returns `outOfFuel` for *every* fuel, i.e. the Python loop never
terminates and no exception is raised. -/
theorem c5_loop_never_progresses (d : List Nat → Option (List Nat)) (fuel : Nat)
    (sp : List Nat) (s : ByteStream) (acc : List (List Nat)) (rnds : List Int)
    (h1 : sp ≠ [0x23]) (h2 : sp ≠ [0x24]) :
    readContentLoop d fuel sp s acc rnds = .error .outOfFuel :=
  readContentLoop_spin d fuel sp s acc rnds h1 h2

/-- Witness for the C5 theorem: a body starting with the byte `%`
(0x25), and the empty read at end of stream, both spin. -/
theorem c5_loop_never_progresses_witness :
    readContentLoop (fun bs => some bs) 5 [0x25] ⟨[0x25], 1⟩ [] [] =
      .error .outOfFuel ∧
    readContentLoop (fun bs => some bs) 7 [] ⟨[], 0⟩ [] [] = .error .outOfFuel := by
  constructor
  · exact c5_loop_never_progresses _ 5 [0x25] ⟨[0x25], 1⟩ [] [] (by decide) (by decide)
  · exact c5_loop_never_progresses _ 7 [] ⟨[], 0⟩ [] [] (by decide) (by decide)

/-- **C6**.  When `read_content` succeeds, the body it returns is the
UTF-16LE decoding of the concatenation of the decompressed segment
payloads in exactly the order the `$`-records were read from the stream
(`segmentsOf` lists the raw payloads in read order); the segments are
never reordered or sorted by their sequence indices. -/
theorem c6_body_is_read_order_concatenation (d : List Nat → Option (List Nat))
    (s : ByteStream) (body : List Nat) (off : Nat)
    (h : read_content d s = .ok (body, off)) :
    ∃ raws ds s2,
      segmentsOf (s.data.length + 1) (bsRead s 1).1 (bsRead s 1).2 = some (raws, s2) ∧
      raws.mapM d = some ds ∧
      utf16leDecode ds.flatten = some body := by
  simp only [read_content] at h
  cases hloop : readContentLoop d (s.data.length + 1) (bsRead s 1).1 (bsRead s 1).2 [] [] with
  | error e => rw [hloop] at h; simp at h
  | ok p =>
    obtain ⟨cl, rl, s1⟩ := p
    rw [hloop] at h
    dsimp only at h
    obtain ⟨raws, ds, hseg, hmap, hcl⟩ := readContentLoop_segments d _ _ _ _ _ _ _ _ hloop
    refine ⟨raws, ds, s1, hseg, hmap, ?_⟩
    have hdec := readContentFinish_ok_decode cl rl s1 body off h
    rw [hcl] at hdec
    simpa using hdec

/-- Witness for the C6 theorem: one segment record with payload
`48 00 69 00` ("Hi"), identity decompression, end marker and a matching
trailer. -/
theorem c6_body_witness :
    read_content (fun bs => some bs)
        ⟨[0x24] ++ [1, 0, 0, 0] ++ [13, 0, 0, 0] ++ [72, 0, 105, 0] ++
         [0x23, 0x81, 0x00] ++
         [0, 0, 1, 0, 0, 0, 0, 1, 0, 0, 0, 13, 0, 0, 0] ++ [1, 0, 0, 0], 0⟩ =
      .ok ([72, 105], 35) ∧
    (∃ raws ds s2,
      segmentsOf 36
        (bsRead ⟨[0x24] ++ [1, 0, 0, 0] ++ [13, 0, 0, 0] ++ [72, 0, 105, 0] ++
         [0x23, 0x81, 0x00] ++
         [0, 0, 1, 0, 0, 0, 0, 1, 0, 0, 0, 13, 0, 0, 0] ++ [1, 0, 0, 0], 0⟩ 1).1
        (bsRead ⟨[0x24] ++ [1, 0, 0, 0] ++ [13, 0, 0, 0] ++ [72, 0, 105, 0] ++
         [0x23, 0x81, 0x00] ++
         [0, 0, 1, 0, 0, 0, 0, 1, 0, 0, 0, 13, 0, 0, 0] ++ [1, 0, 0, 0], 0⟩ 1).2 =
        some (raws, s2) ∧
      raws.mapM (fun bs => some bs) = some ds ∧
      utf16leDecode ds.flatten = some [72, 105]) := by
  refine ⟨by decide, ?_⟩
  exact c6_body_is_read_order_concatenation (fun bs => some bs) _ [72, 105] 35 (by decide)

/-- **C7**.  After the end-of-body marker the trailer's declared list of
`(B−9)/4` 32-bit sequence indices must equal, element for element and in
order, the index list collected while reading the segments; any
difference aborts the decode with the assertion error of
`assert tuple(rnd_lst) == rnd_lst2`. -/
theorem c7_trailer_mismatch_rejected (cl : List (List Nat)) (rl : List Int)
    (pre hb rest : List Nat) (idxll : List (List Nat))
    (hlen : hb.length = 15)
    (hraw : sIntLE ((hb.drop 11).take 4) = 9 + 4 * (idxll.length : Int))
    (hidx : ∀ l ∈ idxll, l.length = 4)
    (hne : rl ≠ idxll.map sIntLE) :
    readContentFinish cl rl ⟨pre ++ (hb ++ (idxll.flatten ++ rest)), pre.length⟩ =
      .error .assertionError := by
  rw [readContentFinish_cases cl rl pre hb rest idxll hlen hraw hidx, if_neg hne]

/-- Witness for the C7 theorem: the collected list is `[1]`, the trailer
declares `[2]`. -/
theorem c7_trailer_mismatch_witness :
    readContentFinish [] [1] ⟨[0, 0, 1, 0, 0, 0, 0, 1, 0, 0, 0, 13, 0, 0, 0] ++
        [2, 0, 0, 0], 0⟩ = .error .assertionError := by
  have h := c7_trailer_mismatch_rejected [] [1] []
    [0, 0, 1, 0, 0, 0, 0, 1, 0, 0, 0, 13, 0, 0, 0] [] [[2, 0, 0, 0]]
    (by decide) (by decide) (by decide) (by decide)
  simpa using h

/-- **C8**.  With equal-length offsets and titles (length `n ≥ 1`), the
assembled chapter list has `n` chapters; chapter `j` with `j + 1 < n`
pairs the `j`-th title with `Body[offsets[j]:offsets[j+1]]`, and the
final chapter pairs the last title with `Body[offsets[n−1]:]`, running
to the exact end of the body. -/
theorem c8_chapter_contents (offsets : List Int) (titles : List (List Nat))
    (body : List Nat) (n : Nat)
    (h1 : offsets.length = n) (h2 : titles.length = n) (h3 : 0 < n) :
    ∃ chs, assembleChapters offsets titles body = .ok chs ∧ chs.length = n ∧
      (∀ j, j + 1 < n → chs[j]? =
        some ⟨titles.getD j [], pySlice body (offsets.getD j 0) (offsets.getD (j + 1) 0)⟩) ∧
      chs[n - 1]? =
        some ⟨titles.getD (n - 1) [], pySliceFrom body (offsets.getD (n - 1) 0)⟩ := by
  obtain ⟨chs, hok, hlen, hchar⟩ := assembleFrom_ok offsets body titles 0 (by omega)
  refine ⟨chs, hok, by omega, ?_, ?_⟩
  · intro j hj
    have hc := hchar j (by omega)
    rw [if_neg (by omega)] at hc
    simpa using hc
  · have hc := hchar (n - 1) (by omega)
    rw [if_pos (by omega)] at hc
    simpa using hc

/-- Witness for the C8 theorem: two chapters over the body
`[10, 20, 30]` with offsets `[0, 2]`. -/
theorem c8_chapter_contents_witness :
    ∃ chs, assembleChapters [0, 2] [[97], [98]] [10, 20, 30] = .ok chs ∧
      chs.length = 2 ∧
      (∀ j, j + 1 < 2 → chs[j]? =
        some ⟨[[97], [98]].getD j [],
          pySlice [10, 20, 30] ([0, 2].getD j 0) ([0, 2].getD (j + 1) 0)⟩) ∧
      chs[2 - 1]? =
        some ⟨[[97], [98]].getD (2 - 1) [], pySliceFrom [10, 20, 30] ([0, 2].getD (2 - 1) 0)⟩ :=
  c8_chapter_contents [0, 2] [[97], [98]] [10, 20, 30] 2 (by decide) (by decide) (by decide)

/-- **C9**.  A chapter-offsets block (0x83) with matching redundant
32-bit header values and encoded count `C = 9 + 4·k` decodes exactly `k`
little-endian signed 32-bit values and stores, in on-disk order, each
value divided by two (Python `int(x / 2)`, truncation toward zero) as
`chapter_offsets`. -/
theorem c9_chapter_offsets_halved (m : UMetadata) (pre hb rest : List Nat)
    (vll : List (List Nat))
    (hlen : hb.length = 15)
    (hpair : sIntLE ((hb.drop 2).take 4) = sIntLE ((hb.drop 7).take 4))
    (hraw : sIntLE ((hb.drop 11).take 4) = 9 + 4 * (vll.length : Int))
    (hvll : ∀ l ∈ vll, l.length = 4) :
    branch83 m ⟨pre ++ (hb ++ (vll.flatten ++ rest)), pre.length⟩ =
      .ok ({ m with chapter_offsets := some ((vll.map sIntLE).map (fun x => pyTruncDiv x 2)) },
           ⟨pre ++ (hb ++ (vll.flatten ++ rest)), pre.length + 15 + 4 * vll.length⟩) :=
  branch83_ok m pre hb rest vll hlen hpair hraw hvll

/-- Witness for the C9 theorem: matching pair (7, 7), count 13 = 9 + 4,
one value 6, stored offset 3. -/
theorem c9_chapter_offsets_halved_witness :
    branch83 {} ⟨[0, 0, 7, 0, 0, 0, 0, 7, 0, 0, 0, 13, 0, 0, 0] ++ [6, 0, 0, 0], 0⟩ =
      .ok ({ chapter_offsets := some [3] },
           ⟨[0, 0, 7, 0, 0, 0, 0, 7, 0, 0, 0, 13, 0, 0, 0] ++ [6, 0, 0, 0], 19⟩) := by
  have h := c9_chapter_offsets_halved {} []
    [0, 0, 7, 0, 0, 0, 0, 7, 0, 0, 0, 13, 0, 0, 0] [] [[6, 0, 0, 0]]
    (by decide) (by decide) (by decide) (by decide)
  simpa using h

/-- **C10**.  `read_cover` treats absence as normal: at end of stream it
returns no cover and no error; a record whose 16-bit tag differs from
0x82 likewise yields no cover and no error; only tag 0x82 yields cover
bytes, namely the `E−9` bytes following the 16-byte header whose last
32-bit field is `E`. -/
theorem c10_cover_optional :
    (∀ s : ByteStream, s.data.length ≤ s.pos → read_cover s = .ok (none, s.pos)) ∧
    (∀ (pre rest : List Nat) (b0 t0 t1 : Nat), sIntLE [t0, t1] ≠ 0x82 →
      read_cover ⟨pre ++ (b0 :: t0 :: t1 :: rest), pre.length⟩ =
        .ok (none, pre.length + 3)) ∧
    (∀ (pre hb rest : List Nat) (b0 : Nat), hb.length = 16 →
      9 ≤ sIntLE ((hb.drop 12).take 4) →
      (sIntLE ((hb.drop 12).take 4) - 9).toNat ≤ rest.length →
      read_cover ⟨pre ++ (b0 :: 0x82 :: 0x00 :: (hb ++ rest)), pre.length⟩ =
        .ok (some (rest.take (sIntLE ((hb.drop 12).take 4) - 9).toNat),
             pre.length + 19 + (sIntLE ((hb.drop 12).take 4) - 9).toNat)) := by
  refine ⟨read_cover_eof, ?_, ?_⟩
  · intro pre rest b0 t0 t1 htag
    exact read_cover_other_tag pre rest b0 t0 t1 htag
  · intro pre hb rest b0 hlen h9 hrest
    exact read_cover_82 pre hb rest b0 hlen h9 hrest

/-- Witness for the C10 theorem: an exhausted stream, a record with tag
0x50, and a cover record with `E = 12` yielding 3 cover bytes. -/
theorem c10_cover_optional_witness :
    read_cover ⟨[1, 2, 3], 3⟩ = .ok (none, 3) ∧
    read_cover ⟨[0, 0x50, 0x00, 9, 9], 0⟩ = .ok (none, 3) ∧
    read_cover ⟨0 :: 0x82 :: 0x00 :: ([1, 2, 3, 4, 0, 0, 0, 5, 6, 0, 0, 0, 12, 0, 0, 0] ++
        [65, 66, 67, 68]), 0⟩ = .ok (some [65, 66, 67], 22) := by
  refine ⟨?_, ?_, ?_⟩
  · exact c10_cover_optional.1 ⟨[1, 2, 3], 3⟩ (by decide)
  · have h := c10_cover_optional.2.1 [] [9, 9] 0 0x50 0x00 (by decide)
    simpa using h
  · have h := c10_cover_optional.2.2 []
      [1, 2, 3, 4, 0, 0, 0, 5, 6, 0, 0, 0, 12, 0, 0, 0] [65, 66, 67, 68] 0
      (by decide) (by decide) (by decide)
    simpa using h
